import Mathlib

/-!
# Verification of the Events-App query / sync / aggregation core

Shallow embedding of the event-discovery core of the Events-App repository:

* `buildTimeRange`, `fetchEvents` query construction and the tag
  normalization of `src/pages/Explore.tsx`;
* the debounced-fetch effect and realtime-subscription effect of
  `src/pages/Explore.tsx`;
* `loadUpcoming` / `loadTrending` (client-side trending fallback
  aggregation) of `pages/HomeUser.tsx`;
* `fetchDiscussions` and the realtime INSERT handler of
  `pages/EventDetails.tsx`.

Conventions of the embedding:

* Wall-clock instants are modelled as a whole number of local days since a
  reference Sunday plus a millisecond offset inside the day, so that
  JavaScript's `Date.getDay()` becomes `day % 7` (0 = Sunday … 6 = Saturday)
  and `setHours(0,0,0,0)` / `setHours(23,59,59,999)` become the offsets `0`
  and `86399999`.  `toISOString` is a strictly monotone injection from
  instants to strings, so the backend's `gte`/`lte`/`order` comparisons on
  ISO strings are modelled directly on absolute milliseconds.
* Backend row sets are modelled as lists; a composed query is a list of
  filter clauses plus an ordering, and its backend evaluation filters the
  rows by every clause and sorts by the order column (`List.insertionSort`,
  which is stable, like the JavaScript engines' `Array.prototype.sort`).
* Fallible fetches are `Except`/`Option` values: `.error`/`none` stands for
  the rejected / `{ data: null, error }` outcome.
-/

namespace EventsApp

/-! ## Local wall-clock time -/

/-- Milliseconds in one day. -/
def msPerDay : Nat := 86400000

/-- `setHours(23, 59, 59, 999)` as an offset inside the day. -/
def endOfDayMs : Nat := 86399999

/-- A local wall-clock instant: `day` whole local days since a reference
Sunday, plus `ms` milliseconds inside that day. -/
structure LocalNow where
  day : Nat
  ms : Nat
deriving DecidableEq, Repr

/-- JavaScript `Date.getDay()`: 0 = Sunday, …, 6 = Saturday. -/
def getDay (now : LocalNow) : Nat := now.day % 7

/-- Absolute milliseconds of the instant `ms` within local day `day`. -/
def absMs (day ms : Nat) : Nat := day * msPerDay + ms

/-- Absolute milliseconds of `now` itself (`new Date().toISOString()`). -/
def nowAbs (now : LocalNow) : Nat := absMs now.day now.ms

/-! ## Filter state (Explore screen) -/

/-- The `FILTERS` constant of `Explore.tsx`. -/
inductive FilterKey
  | all | today | tomorrow | thisWeek | nextWeek
  | sports | tech | cultural | workshops | hackathons
deriving DecidableEq, Repr

/-- The string value each filter key has in the TypeScript source. -/
def filterName : FilterKey → String
  | .all => "all"
  | .today => "today"
  | .tomorrow => "tomorrow"
  | .thisWeek => "thisWeek"
  | .nextWeek => "nextWeek"
  | .sports => "sports"
  | .tech => "tech"
  | .cultural => "cultural"
  | .workshops => "workshops"
  | .hackathons => "hackathons"

/-- JavaScript `String.prototype.trim`: drop leading and trailing
whitespace. -/
def jsTrim (s : String) : String :=
  String.mk (((s.toList.dropWhile Char.isWhitespace).reverse.dropWhile
    Char.isWhitespace).reverse)

/-- A `{ start, end }` pair of absolute-millisecond instants (`end` is a
Lean keyword, hence `stop`). -/
structure TimeRange where
  start : Nat
  stop : Nat
deriving DecidableEq, Repr

/-- `daysUntilNextMonday = (8 - s.getDay()) % 7 || 7` of `Explore.tsx`,
already added to the current day: the day on which the `nextWeek` window
starts. -/
def nextMondayDay (now : LocalNow) : Nat :=
  now.day + (if (8 - getDay now) % 7 = 0 then 7 else (8 - getDay now) % 7)

/-- `buildTimeRange` of `Explore.tsx` (lines 70–109): the absolute
`[start, end]` window of a relative time key, `none` for every other
filter key. -/
def buildTimeRange (filter : FilterKey) (now : LocalNow) : Option TimeRange :=
  match filter with
  | .today =>
      some ⟨absMs now.day 0, absMs now.day endOfDayMs⟩
  | .tomorrow =>
      some ⟨absMs (now.day + 1) 0, absMs (now.day + 1) endOfDayMs⟩
  | .thisWeek =>
      some ⟨absMs now.day 0, absMs (now.day + (7 - getDay now)) endOfDayMs⟩
  | .nextWeek =>
      some ⟨absMs (nextMondayDay now) 0, absMs (nextMondayDay now + 6) endOfDayMs⟩
  | _ => none

/-! ## Composed event query (Explore `fetchEvents`, lines 111–171) -/

/-- One filter clause of the composed supabase query.  `textOr` models the
`.or("title.ilike.%q%,location.ilike.%q%")` call as the list of its
comma-separated `column.ilike.pattern` members. -/
inductive Clause
  | statusIn (vals : List String)
  | startGte (v : Nat)
  | startLte (v : Nat)
  | tagsContains (vals : List String)
  | textOr (pats : List (String × String))
deriving DecidableEq, Repr

/-- The fully composed query description: target table, conjunction of
filter clauses, and the ordering column/direction. -/
structure EventQuery where
  table : String
  clauses : List Clause
  orderCol : String
  orderAsc : Bool
deriving DecidableEq, Repr

/-- The query composed by `fetchEvents` in `Explore.tsx`:
status ∈ {approved, pending}; the time window of `buildTimeRange` when the
active filter is a relative time key, else `start_time ≥ now`; a
tags-contains clause for the five category keys; an OR of two ilike
patterns on title and location when the trimmed search text is non-empty;
ordered ascending by `start_time`. -/
def buildEventQuery (filter : FilterKey) (searchText : String) (now : LocalNow) :
    EventQuery :=
  let base := [Clause.statusIn ["approved", "pending"]]
  let timeCls :=
    match buildTimeRange filter now with
    | some tr => [Clause.startGte tr.start, Clause.startLte tr.stop]
    | none => [Clause.startGte (nowAbs now)]
  let catCls :=
    if ["sports", "tech", "cultural", "workshops", "hackathons"].contains
        (filterName filter) then
      [Clause.tagsContains [filterName filter]]
    else []
  let search := jsTrim searchText
  let textCls :=
    if search = "" then []
    else
      [Clause.textOr [("title", "%" ++ search ++ "%"),
                      ("location", "%" ++ search ++ "%")]]
  { table := "event_submissions"
    clauses := base ++ timeCls ++ catCls ++ textCls
    orderCol := "start_time"
    orderAsc := true }

/-! ## Event rows and backend query evaluation -/

/-- The `EventRow` record of `Explore.tsx` (times as absolute ms). -/
structure EventRow where
  id : String
  title : String
  description : Option String
  start_time : Option Nat
  end_time : Option Nat
  location : Option String
  tags : Option (List String)
  status : Option String
  created_at : Option Nat
deriving DecidableEq, Repr

/-- Does the second character list start with the first? -/
def leadsWith : List Char → List Char → Bool
  | [], _ => true
  | _ :: _, [] => false
  | p :: ps, c :: cs => p == c && leadsWith ps cs

/-- Does the pattern occur as a contiguous sublist? -/
def subList (pat : List Char) : List Char → Bool
  | [] => pat.isEmpty
  | c :: cs => leadsWith pat (c :: cs) || subList pat cs

/-- Substring test used to model `ilike`: does `s` contain `t`? -/
def containsSubstr (s t : String) : Bool :=
  subList t.toList s.toList

/-- ASCII lower-casing of one character, the effect of JavaScript
`toLowerCase()` on the ASCII range. -/
def lowerChar (c : Char) : Char :=
  if 65 ≤ c.toNat ∧ c.toNat ≤ 90 then Char.ofNat (c.toNat + 32) else c

/-- JavaScript `String.prototype.toLowerCase` on ASCII strings. -/
def lowerStr (s : String) : String :=
  String.mk (s.toList.map lowerChar)

/-- Strip the `%` wildcards wrapping an ilike pattern. -/
def stripWildcards (p : String) : String :=
  String.mk (((p.toList.dropWhile (· = '%')).reverse.dropWhile (· = '%')).reverse)

/-- `column ilike '%term%'`: case-insensitive substring match. -/
def ilikeMatch (pat s : String) : Bool :=
  containsSubstr (lowerStr s) (lowerStr (stripWildcards pat))

/-- The text column a `textOr` member refers to. -/
def rowField (r : EventRow) (col : String) : String :=
  if col = "title" then r.title
  else if col = "location" then r.location.getD ""
  else ""

/-- Backend semantics of one filter clause on one row (`null` columns never
satisfy a comparison or containment clause). -/
def rowSatisfiesClause (r : EventRow) : Clause → Bool
  | .statusIn vals =>
      match r.status with
      | some st => vals.contains st
      | none => false
  | .startGte v =>
      match r.start_time with
      | some st => v ≤ st
      | none => false
  | .startLte v =>
      match r.start_time with
      | some st => st ≤ v
      | none => false
  | .tagsContains vals =>
      match r.tags with
      | some ts => vals.all (fun t => ts.contains t)
      | none => false
  | .textOr pats => pats.any (fun p => ilikeMatch p.2 (rowField r p.1))

/-- A row satisfies a query when it satisfies every clause. -/
def rowSatisfies (r : EventRow) (q : EventQuery) : Bool :=
  q.clauses.all (rowSatisfiesClause r)

/-- Ascending `start_time` order on rows. -/
def rowLe (a b : EventRow) : Prop :=
  a.start_time.getD 0 ≤ b.start_time.getD 0

instance : DecidableRel rowLe := fun a b =>
  inferInstanceAs (Decidable (a.start_time.getD 0 ≤ b.start_time.getD 0))

instance : IsTotal EventRow rowLe := ⟨fun _ _ => Nat.le_total _ _⟩

instance : IsTrans EventRow rowLe := ⟨fun _ _ _ => Nat.le_trans⟩

/-- Descending `start_time` order on rows. -/
def rowGe (a b : EventRow) : Prop :=
  b.start_time.getD 0 ≤ a.start_time.getD 0

instance : DecidableRel rowGe := fun a b =>
  inferInstanceAs (Decidable (b.start_time.getD 0 ≤ a.start_time.getD 0))

/-- Backend evaluation of a composed query on the stored rows: keep the
rows satisfying every clause, return them in the requested `start_time`
order (stable sort, like the backend's deterministic ordering). -/
def evalQuery (q : EventQuery) (db : List EventRow) : List EventRow :=
  let hits := db.filter (fun r => rowSatisfies r q)
  if q.orderAsc then List.insertionSort rowLe hits
  else List.insertionSort rowGe hits

/-! ## Result normalization -/

/-- Per-tag normalization of `Explore.tsx` lines 156–161: every tag is a
string in the row model, so `typeof t === 'string'` holds and the tag is
lowercased. -/
def normTag (t : String) : String := lowerStr t

/-- The per-row normalization of `Explore.tsx` `fetchEvents`
(`{ ...r, tags: (r.tags || []).map(...) }`): spread the row, replace
`tags` by the lowercased tag list (empty when `tags` is null). -/
def normalizeExploreRow (r : EventRow) : EventRow :=
  { r with tags := some ((r.tags.getD []).map normTag) }

/-- First-tag category derivation `event.tags?.[0]` used by the Explore
renderer. -/
def deriveCategory (r : EventRow) : Option String :=
  r.tags.bind fun ts => ts.head?

/-- The row shape produced by `HomeUser.tsx` `loadUpcoming` normalization
(times as absolute ms; `time` is the derived locale-formatted string). -/
structure HomeEvent where
  id : String
  title : String
  description : Option String
  start_time : Option Nat
  end_time : Option Nat
  time : Option String
  location : Option String
  tags : Option (List String)
  poster_url : Option String
  organizer : Option String
  status : Option String
  created_at : Option Nat
  category : Option String
deriving DecidableEq, Repr

/-- `loadUpcoming` normalization of `HomeUser.tsx` lines 85–99,
parametrized by the opaque locale formatter `fmt`
(`new Date(..).toLocaleString()`): recompute `time` from `start_time`
(falling back to the existing `time`), recompute `category` as the first
tag (`ev.tags?.[0] || undefined`: an empty-string first tag is falsy and
yields no category). -/
def normalizeHome (fmt : Nat → String) (ev : HomeEvent) : HomeEvent :=
  { id := ev.id
    title := ev.title
    description := ev.description
    start_time := ev.start_time
    end_time := ev.end_time
    time :=
      match ev.start_time with
      | some st => some (fmt st)
      | none => ev.time
    location := ev.location
    tags := ev.tags
    poster_url := ev.poster_url
    organizer := ev.organizer
    status := ev.status
    created_at := ev.created_at
    category :=
      match ev.tags with
      | some (t :: _) => if t = "" then none else some t
      | _ => none }

/-! ## Trending fallback aggregation (`HomeUser.tsx` `loadTrending`) -/

/-- The event columns selected by the trending fallback
(`select('id,title,start_time,tags,location')`). -/
structure TrendEvent where
  id : String
  title : String
  start_time : Option Nat
  tags : Option (List String)
  location : Option String
deriving DecidableEq, Repr

/-- A registration record (`select('event_id')`). -/
structure Registration where
  event_id : String
deriving DecidableEq, Repr

/-- The enriched trending row built by the fallback path. -/
structure Enriched where
  id : String
  title : String
  start_time : Option Nat
  location : Option String
  registration_count : Nat
  category : Option String
deriving DecidableEq, Repr

/-- The `counts[ev.id] || 0` lookup of the fallback path: the counts map is
built only from registrations with a truthy (non-empty) `event_id`
(`if (r && r.event_id)`), and a missing key yields 0. -/
def regCount (regs : List Registration) (id : String) : Nat :=
  (regs.filter (fun r => !(r.event_id == "") && r.event_id == id)).length

/-- One enriched row of the fallback path (`HomeUser.tsx` lines 139–147);
`category = ev.tags?.[0] || undefined`. -/
def enrich (regs : List Registration) (ev : TrendEvent) : Enriched :=
  { id := ev.id
    title := ev.title
    start_time := ev.start_time
    location := ev.location
    registration_count := regCount regs ev.id
    category :=
      match ev.tags with
      | some (t :: _) => if t = "" then none else some t
      | _ => none }

/-- Descending registration-count order
(`(b.registration_count || 0) - (a.registration_count || 0)`). -/
def trendGe (a b : Enriched) : Prop :=
  b.registration_count ≤ a.registration_count

instance : DecidableRel trendGe := fun a b =>
  inferInstanceAs (Decidable (b.registration_count ≤ a.registration_count))

instance : IsTotal Enriched trendGe := ⟨fun _ _ => Nat.le_total _ _⟩

instance : IsTrans Enriched trendGe := ⟨fun _ _ _ h h' => Nat.le_trans h' h⟩

/-- The fallback client aggregation of `HomeUser.tsx` `loadTrending`
(lines 122–150): enrich every fetched event with its registration count,
sort descending by count (stable, as JavaScript's `sort`), keep the first
8. -/
def loadTrendingFallback (events : List TrendEvent) (regs : List Registration) :
    List Enriched :=
  (List.insertionSort trendGe (events.map (enrich regs))).take 8

/-! ## Background-fetch error handling -/

/-- Outcome of the Explore `fetchEvents` call on its state: on a query
error or a thrown exception the list is set to `[]`
(`setEvents([])` in both the error branch and the `catch`), otherwise the
rows are normalized and stored. -/
def fetchEventsOutcome (res : Except String (List EventRow)) : List EventRow :=
  match res with
  | .error _ => []
  | .ok rows => rows.map normalizeExploreRow

/-- Outcome of `HomeUser.tsx` `loadUpcoming`: error or exception sets
`[]`, success stores the normalized rows. -/
def loadUpcomingOutcome (fmt : Nat → String) (res : Except String (List HomeEvent)) :
    List HomeEvent :=
  match res with
  | .error _ => []
  | .ok rows => rows.map (normalizeHome fmt)

/-- The fallback aggregation applied to the two sub-fetch results:
`eventsRes.data || []` and `regsRes.data || []` treat an errored
sub-fetch (`data: null`) as the empty collection. -/
def loadTrendingFallbackRes (eventsRes : Option (List TrendEvent))
    (regsRes : Option (List Registration)) : List Enriched :=
  loadTrendingFallback (eventsRes.getD []) (regsRes.getD [])

/-- Outcome of the whole `loadTrending` body under its enclosing
`try`/`catch`: a thrown exception sets the trending list to `[]`. -/
def loadTrendingOutcome (res : Except String (List Enriched)) : List Enriched :=
  match res with
  | .error _ => []
  | .ok rows => rows

/-! ## Explore screen state and the realtime refetch -/

/-- The state of the Explore screen touched by `fetchEvents`: the rendered
event list and the loading-indicator flag. -/
structure ExploreState where
  events : List EventRow
  loading : Bool
deriving DecidableEq, Repr

/-- The successive states the Explore screen traverses during one
`fetchEvents(opts)` call: without `bypassLoading` the flag is set before
the await and cleared in the `finally`; with `bypassLoading` only the
event list is written. -/
def fetchEventsTrace (bypass : Bool) (res : Except String (List EventRow))
    (s : ExploreState) : List ExploreState :=
  if bypass then
    [{ s with events := fetchEventsOutcome res }]
  else
    [{ s with loading := true },
     { events := fetchEventsOutcome res, loading := true },
     { events := fetchEventsOutcome res, loading := false }]

/-- The realtime subscription handler of `Explore.tsx` (lines 198–219):
each change notification runs the callback once, and the callback issues
exactly one `fetchEvents({ bypassLoading: true })` call.  A call is
recorded by its `bypassLoading` flag. -/
def realtimeRefetchCalls (notifs : List Nat) : List Bool :=
  notifs.map (fun _ => true)

/-! ## Debounced fetch effect (`Explore.tsx` lines 174–195) -/

/-- The Explore filter state: active filter key and search text. -/
structure FilterState where
  activeFilter : FilterKey
  searchText : String
deriving DecidableEq, Repr

/-- One issued fetch: the instant it fires and the filter state it closes
over. -/
structure FetchCall where
  time : Nat
  fs : FilterState
deriving DecidableEq, Repr

/-- The debounce interval of the effect. -/
def debounceMs : Nat := 400

/-- Executes the filter/search effect of `Explore.tsx` over a
time-ordered list of filter-state changes, threading the pending debounce
timer (deadline and captured state).  On each change the effect first
clears a still-pending timer (a timer whose deadline has already passed
fired and produced its fetch); then, when the new search text is empty it
fetches immediately, otherwise it schedules a fetch `debounceMs` later.
A timer still pending after the last change fires. -/
def runEffects : List (Nat × FilterState) → Option (Nat × FilterState) → List FetchCall
  | [], none => []
  | [], some df => [⟨df.1, df.2⟩]
  | (t, fs) :: rest, none =>
      if fs.searchText = "" then ⟨t, fs⟩ :: runEffects rest none
      else runEffects rest (some (t + debounceMs, fs))
  | (t, fs) :: rest, some df =>
      let fired : List FetchCall := if df.1 ≤ t then [⟨df.1, df.2⟩] else []
      if fs.searchText = "" then fired ++ ⟨t, fs⟩ :: runEffects rest none
      else fired ++ runEffects rest (some (t + debounceMs, fs))

/-- The fetches issued for a time-ordered list of filter-state changes,
starting with no pending timer. -/
def debounceFetches (changes : List (Nat × FilterState)) : List FetchCall :=
  runEffects changes none

/-! ## Discussion sync (`EventDetails.tsx`) -/

/-- A row of the `reddit_comments` table (creation time as absolute ms). -/
structure RedditRow where
  id : String
  event_id : String
  created_utc : Nat
  body : String
deriving DecidableEq, Repr

/-- Descending `created_utc` order. -/
def discGe (a b : RedditRow) : Prop := b.created_utc ≤ a.created_utc

instance : DecidableRel discGe := fun a b =>
  inferInstanceAs (Decidable (b.created_utc ≤ a.created_utc))

instance : IsTotal RedditRow discGe := ⟨fun _ _ => Nat.le_total _ _⟩

instance : IsTrans RedditRow discGe := ⟨fun _ _ _ h h' => Nat.le_trans h' h⟩

/-- `fetchDiscussions` of `EventDetails.tsx` (lines 97–113): the rows of
the event, ordered by `created_utc` descending, limited to 200. -/
def fetchDiscussions (db : List RedditRow) (eid : String) : List RedditRow :=
  (List.insertionSort discGe (db.filter (fun r => r.event_id == eid))).take 200

/-- The realtime INSERT handler of `EventDetails.tsx` (line 130):
`setDiscussions((prev) => [payload.new, ...prev])`. -/
def applyInsertNotification (payload : RedditRow) (prev : List RedditRow) :
    List RedditRow :=
  payload :: prev

/-! ## Claim theorems -/

/-- **C1**: for every relative time key and every current wall-clock time,
`buildTimeRange` yields a window with `start ≤ end` on the spec's calendar
boundaries: `today` = local midnight to 23:59:59.999 of the current day;
`tomorrow` = the same bounds one calendar day later; `thisWeek` = local
midnight today to 23:59:59.999 of the day `7 - currentWeekday` ahead (a
7-day lookahead even on a Sunday); `nextWeek` = midnight of the next Monday
strictly after today to 23:59:59.999 six days later; every non-time filter
key yields no window and the composed query then carries the default
predicate `start_time ≥ now`. -/
theorem C1_buildTimeRange_windows :
    (∀ now : LocalNow,
        buildTimeRange .today now
          = some ⟨absMs now.day 0, absMs now.day endOfDayMs⟩)
  ∧ (∀ now : LocalNow,
        buildTimeRange .tomorrow now
          = some ⟨absMs (now.day + 1) 0, absMs (now.day + 1) endOfDayMs⟩)
  ∧ (∀ now : LocalNow,
        buildTimeRange .thisWeek now
          = some ⟨absMs now.day 0, absMs (now.day + (7 - getDay now)) endOfDayMs⟩
        ∧ (now.day + (7 - getDay now)) % 7 = 0
        ∧ (getDay now = 0 → now.day + (7 - getDay now) = now.day + 7))
  ∧ (∀ now : LocalNow,
        buildTimeRange .nextWeek now
          = some ⟨absMs (nextMondayDay now) 0,
                  absMs (nextMondayDay now + 6) endOfDayMs⟩
        ∧ nextMondayDay now % 7 = 1
        ∧ now.day < nextMondayDay now
        ∧ nextMondayDay now ≤ now.day + 7)
  ∧ (∀ f now tr, buildTimeRange f now = some tr → tr.start ≤ tr.stop)
  ∧ (∀ now : LocalNow,
        buildTimeRange .all now = none
        ∧ buildTimeRange .sports now = none
        ∧ buildTimeRange .tech now = none
        ∧ buildTimeRange .cultural now = none
        ∧ buildTimeRange .workshops now = none
        ∧ buildTimeRange .hackathons now = none)
  ∧ (∀ f s now, buildTimeRange f now = none →
        Clause.startGte (nowAbs now) ∈ (buildEventQuery f s now).clauses) := by
  refine ⟨fun now => rfl, fun now => rfl, fun now => ⟨rfl, ?_, ?_⟩,
    fun now => ⟨rfl, ?_, ?_, ?_⟩, ?_, fun now => ⟨rfl, rfl, rfl, rfl, rfl, rfl⟩, ?_⟩
  · have h : now.day % 7 < 7 := Nat.mod_lt _ (by omega)
    unfold getDay
    omega
  · unfold getDay
    omega
  · unfold nextMondayDay getDay
    split <;> omega
  · unfold nextMondayDay getDay
    split <;> omega
  · unfold nextMondayDay getDay
    split <;> omega
  · intro f now tr h
    cases f
    case today =>
      injection h with h
      subst h
      simp only [absMs, endOfDayMs, msPerDay]
      omega
    case tomorrow =>
      injection h with h
      subst h
      simp only [absMs, endOfDayMs, msPerDay]
      omega
    case thisWeek =>
      injection h with h
      subst h
      simp only [absMs, endOfDayMs, msPerDay]
      omega
    case nextWeek =>
      injection h with h
      subst h
      simp only [absMs, endOfDayMs, msPerDay]
      omega
    all_goals exact Option.noConfusion h
  · intro f s now h
    simp only [buildEventQuery, h]
    simp

/-- Witness for C1: the `today` window on day 10 (a Wednesday), the
`start ≤ end` conjunct at that window, the default `start_time ≥ now`
clause for the `all` key, and the Sunday 7-day lookahead of `thisWeek`. -/
theorem C1_witness :
    (buildTimeRange .today ⟨10, 5⟩ = some ⟨864000000, 950399999⟩
      ∧ (864000000 : Nat) ≤ 950399999)
  ∧ Clause.startGte (nowAbs ⟨10, 5⟩) ∈ (buildEventQuery .all "" ⟨10, 5⟩).clauses
  ∧ LocalNow.day ⟨7, 0⟩ + (7 - getDay ⟨7, 0⟩) = 7 + 7 := by
  refine ⟨⟨by decide, ?_⟩, ?_, ?_⟩
  · exact C1_buildTimeRange_windows.2.2.2.2.1 .today ⟨10, 5⟩
      ⟨864000000, 950399999⟩ (by decide)
  · exact C1_buildTimeRange_windows.2.2.2.2.2.2 .all "" ⟨10, 5⟩ (by decide)
  · exact (C1_buildTimeRange_windows.2.2.1 ⟨7, 0⟩).2.2 (by decide)

/-- Is a clause the text-search predicate? -/
def isTextOrClause : Clause → Bool
  | .textOr _ => true
  | _ => false

/-- The text predicate of the composed query, as a function of the trimmed
search text: absent when the trimmed text is empty, otherwise exactly the
OR of the two wildcard-wrapped ilike patterns on title and location. -/
theorem textOr_clauses_eq (f : FilterKey) (now : LocalNow) (s : String) :
    (buildEventQuery f s now).clauses.filter isTextOrClause
      = if jsTrim s = "" then []
        else [Clause.textOr [("title", "%" ++ jsTrim s ++ "%"),
                             ("location", "%" ++ jsTrim s ++ "%")]] := by
  cases htr : buildTimeRange f now <;>
    simp only [buildEventQuery, htr, List.filter_append] <;>
    split_ifs <;>
    simp_all [isTextOrClause]

/-- **C4**: for every filter state whose trimmed search string is empty the
composed query contains no text predicate; for every non-empty trimmed
search string it contains exactly one text predicate, the OR of two
case-insensitive substring (ilike) patterns, one on `title` and one on
`location`, each wrapping the trimmed term in `%` wildcards. -/
theorem C4_text_predicate :
    (∀ f now s, jsTrim s = "" →
        ∀ pats, Clause.textOr pats ∉ (buildEventQuery f s now).clauses)
  ∧ (∀ f now s, jsTrim s ≠ "" →
        (buildEventQuery f s now).clauses.filter isTextOrClause
          = [Clause.textOr [("title", "%" ++ jsTrim s ++ "%"),
                            ("location", "%" ++ jsTrim s ++ "%")]]) := by
  constructor
  · intro f now s h pats hmem
    have hf : Clause.textOr pats ∈
        (buildEventQuery f s now).clauses.filter isTextOrClause :=
      List.mem_filter.mpr ⟨hmem, rfl⟩
    rw [textOr_clauses_eq, if_pos h] at hf
    exact List.not_mem_nil _ hf
  · intro f now s h
    rw [textOr_clauses_eq, if_neg h]

/-- Witness for C4: the blank search `"   "` produces no text predicate
(in particular not the one for term `x`), while the search `" jazz "`
produces exactly the two OR-combined `%jazz%` patterns. -/
theorem C4_witness :
    Clause.textOr [("title", "%x%"), ("location", "%x%")]
        ∉ (buildEventQuery .all "   " ⟨0, 0⟩).clauses
  ∧ (buildEventQuery .today " jazz " ⟨0, 0⟩).clauses.filter isTextOrClause
      = [Clause.textOr [("title", "%jazz%"), ("location", "%jazz%")]] := by
  constructor
  · exact C4_text_predicate.1 .all ⟨0, 0⟩ "   " (by decide) _
  · have h := C4_text_predicate.2 .today ⟨0, 0⟩ " jazz " (by decide)
    have hjz : jsTrim " jazz " = "jazz" := by decide
    rw [hjz] at h
    exact h

/-- **C5**: every composed event query restricts to
status ∈ {approved, pending} and orders ascending by `start_time`; every
row a query evaluation returns has status `approved` or `pending` and the
returned list is ascending in `start_time`; on backend rows with statuses
`pending`, `approved` and `rejected`, the default (`all`, empty search)
query returns exactly the pending and approved rows in ascending
`start_time` order. -/
theorem C5_status_and_order :
    (∀ f s now,
        Clause.statusIn ["approved", "pending"] ∈ (buildEventQuery f s now).clauses
        ∧ (buildEventQuery f s now).orderCol = "start_time"
        ∧ (buildEventQuery f s now).orderAsc = true)
  ∧ (∀ f s now db r, r ∈ evalQuery (buildEventQuery f s now) db →
        r.status = some "approved" ∨ r.status = some "pending")
  ∧ (∀ f s now db, List.Sorted rowLe (evalQuery (buildEventQuery f s now) db))
  ∧ evalQuery (buildEventQuery .all "" ⟨0, 0⟩)
      [⟨"1", "P", none, some 5000, none, none, none, some "pending", none⟩,
       ⟨"2", "A", none, some 3000, none, none, none, some "approved", none⟩,
       ⟨"3", "R", none, some 4000, none, none, none, some "rejected", none⟩]
      = [⟨"2", "A", none, some 3000, none, none, none, some "approved", none⟩,
         ⟨"1", "P", none, some 5000, none, none, none, some "pending", none⟩] := by
  have hmemStatus : ∀ f s now,
      Clause.statusIn ["approved", "pending"] ∈ (buildEventQuery f s now).clauses := by
    intro f s now
    simp [buildEventQuery]
  refine ⟨fun f s now => ⟨hmemStatus f s now, rfl, rfl⟩, ?_, ?_, by decide⟩
  · intro f s now db r hr
    simp only [evalQuery] at hr
    rw [if_pos (show (buildEventQuery f s now).orderAsc = true from rfl)] at hr
    rw [List.mem_insertionSort] at hr
    have hsat : rowSatisfies r (buildEventQuery f s now) = true :=
      (List.mem_filter.mp hr).2
    have hall := List.all_eq_true.mp hsat _ (hmemStatus f s now)
    revert hall
    simp only [rowSatisfiesClause]
    cases hst : r.status with
    | none => simp
    | some st =>
      intro hall
      have hst2 : st = "approved" ∨ st = "pending" := by
        have h2 : st ∈ ["approved", "pending"] := by
          simpa [List.contains] using hall
        simpa using h2
      rcases hst2 with h | h
      · left; rw [h]
      · right; rw [h]
  · intro f s now db
    simp only [evalQuery]
    rw [if_pos (show (buildEventQuery f s now).orderAsc = true from rfl)]
    exact List.sorted_insertionSort rowLe _

/-- Witness for C5: the status clause and ordering of the default query on
day 0, plus a returned row of the concrete evaluation having an allowed
status. -/
theorem C5_witness :
    (Clause.statusIn ["approved", "pending"]
        ∈ (buildEventQuery .all "" ⟨0, 0⟩).clauses
      ∧ (buildEventQuery .all "" ⟨0, 0⟩).orderCol = "start_time"
      ∧ (buildEventQuery .all "" ⟨0, 0⟩).orderAsc = true)
  ∧ ((⟨"2", "A", none, some 3000, none, none, none, some "approved", none⟩ :
        EventRow).status = some "approved"
      ∨ (⟨"2", "A", none, some 3000, none, none, none, some "approved", none⟩ :
        EventRow).status = some "pending") := by
  refine ⟨C5_status_and_order.1 .all "" ⟨0, 0⟩, ?_⟩
  exact C5_status_and_order.2.1 .all "" ⟨0, 0⟩
    [⟨"2", "A", none, some 3000, none, none, none, some "approved", none⟩] _
    (by decide)

/-- **C2** (counterexample): the claim fails on the code.  Three
filter-state changes at t = 0, 100, 200 — each within 400ms of the
previous — with empty search text produce three immediate fetches, not
exactly one; and a single change to the category key `sports` while the
search text `"jazz"` is present is debounced (fetch at t = 400), not
fetched immediately. -/
theorem C2_counterexample :
    (debounceFetches
        [(0, ⟨.all, ""⟩), (100, ⟨.today, ""⟩), (200, ⟨.sports, ""⟩)]).length = 3
  ∧ debounceFetches [(0, ⟨.sports, "jazz"⟩)]
      = [⟨400, ⟨.sports, "jazz"⟩⟩] := by decide

/-- **C2** (amended): whether a filter-state change debounces depends on
the current search text, not on which field changed: a change whose
resulting search text is empty fetches immediately, a change whose
resulting search text is non-empty (including a category or time-key
change while a search term is present) is debounced 400ms; three changes
each within 400ms of the previous, all with non-empty search text,
produce exactly one fetch, with the final filter state, 400ms after the
last change. -/
theorem C2_debounce_amended :
    (∀ (t1 t2 t3 : Nat) (fs1 fs2 fs3 : FilterState),
        t1 < t2 → t2 < t1 + debounceMs → t2 < t3 → t3 < t2 + debounceMs →
        fs1.searchText ≠ "" → fs2.searchText ≠ "" → fs3.searchText ≠ "" →
        debounceFetches [(t1, fs1), (t2, fs2), (t3, fs3)]
          = [⟨t3 + debounceMs, fs3⟩])
  ∧ (∀ (t : Nat) (fs : FilterState), fs.searchText = "" →
        debounceFetches [(t, fs)] = [⟨t, fs⟩])
  ∧ (∀ (t : Nat) (fs : FilterState), fs.searchText ≠ "" →
        debounceFetches [(t, fs)] = [⟨t + debounceMs, fs⟩]) := by
  refine ⟨?_, ?_, ?_⟩
  · intro t1 t2 t3 fs1 fs2 fs3 h12 h21 h23 h32 h1 h2 h3
    simp only [debounceFetches, runEffects, if_neg h1, if_neg h2, if_neg h3]
    rw [if_neg (show ¬ (t1 + debounceMs ≤ t2) by omega),
        if_neg (show ¬ (t2 + debounceMs ≤ t3) by omega)]
    simp
  · intro t fs h
    simp [debounceFetches, runEffects, h]
  · intro t fs h
    simp [debounceFetches, runEffects, if_neg h]

/-- Witness for the amended C2: three changes at t = 0, 100, 200 with
non-empty search text yield the single fetch ⟨600, final state⟩; a change
with empty search text fetches immediately; a single change with search
text `x` fetches 400ms later. -/
theorem C2_witness :
    debounceFetches
        [(0, ⟨.all, "a"⟩), (100, ⟨.today, "a"⟩), (200, ⟨.sports, "ab"⟩)]
      = [⟨600, ⟨.sports, "ab"⟩⟩]
  ∧ debounceFetches [(5, ⟨.today, ""⟩)] = [⟨5, ⟨.today, ""⟩⟩]
  ∧ debounceFetches [(7, ⟨.tech, "x"⟩)] = [⟨407, ⟨.tech, "x"⟩⟩] := by
  refine ⟨?_, ?_, ?_⟩
  · exact C2_debounce_amended.1 0 100 200 _ _ _ (by decide) (by decide)
      (by decide) (by decide) (by decide) (by decide) (by decide)
  · exact C2_debounce_amended.2.1 5 _ (by decide)
  · exact C2_debounce_amended.2.2 7 _ (by decide)

/-- **C3** (counterexample): the claim fails on the code for an event whose
id is the empty string.  The counts map is built only from registrations
with a truthy `event_id` (`if (r && r.event_id)`), so the registration
with `event_id = ""` is skipped and the event with id `""` gets
`registration_count = 0`, although exactly one registration record has an
`event_id` equal to that event's id. -/
theorem C3_counterexample :
    loadTrendingFallback [⟨"", "E", some 0, none, none⟩] [⟨""⟩]
      = [⟨"", "E", some 0, none, 0, none⟩]
  ∧ ([(⟨""⟩ : Registration)].filter (fun r => r.event_id == "")).length = 1 := by
  decide

/-- Every row of the fallback ranking carries the count of the
registrations with a truthy `event_id` equal to its own id. -/
theorem mem_loadTrendingFallback_count (events : List TrendEvent)
    (regs : List Registration) (e : Enriched)
    (he : e ∈ loadTrendingFallback events regs) :
    e.registration_count
      = (regs.filter (fun r => !(r.event_id == "") && r.event_id == e.id)).length := by
  have h1 : e ∈ List.insertionSort trendGe (events.map (enrich regs)) :=
    List.take_subset _ _ he
  rw [List.mem_insertionSort] at h1
  obtain ⟨ev, _, rfl⟩ := List.mem_map.mp h1
  rfl

/-- **C3** (amended): the fallback aggregation attaches to each fetched
event a `registration_count` equal to the number of registration records
whose `event_id` is non-empty (truthy) and equals that event's id (0 when
there are none, and registrations matching no fetched event are ignored),
sorts descending by `registration_count`, and truncates to the top 8; on
events `[a, b]` and registrations `[a, a, c]` the output is
`[(a, 2), (b, 0)]`. -/
theorem C3_trending_amended :
    (∀ events regs (e : Enriched), e ∈ loadTrendingFallback events regs →
        e.registration_count
          = (regs.filter
              (fun r => !(r.event_id == "") && r.event_id == e.id)).length)
  ∧ (∀ events regs, List.Sorted trendGe (loadTrendingFallback events regs))
  ∧ (∀ events regs, (loadTrendingFallback events regs).length ≤ 8)
  ∧ loadTrendingFallback
      [⟨"a", "A", some 0, none, none⟩, ⟨"b", "B", some 0, none, none⟩]
      [⟨"a"⟩, ⟨"a"⟩, ⟨"c"⟩]
      = [⟨"a", "A", some 0, none, 2, none⟩,
         ⟨"b", "B", some 0, none, 0, none⟩] := by
  refine ⟨fun events regs e he => mem_loadTrendingFallback_count events regs e he,
    ?_, ?_, by decide⟩
  · intro events regs
    exact List.Pairwise.sublist (List.take_sublist _ _)
      (List.sorted_insertionSort trendGe _)
  · intro events regs
    rw [loadTrendingFallback, List.length_take]
    exact min_le_left _ _

/-- Witness for the amended C3: the top-ranked event of the concrete
example carries count 2, the number of registrations with its id. -/
theorem C3_witness :
    (⟨"a", "A", some 0, none, 2, none⟩ : Enriched).registration_count
      = (([⟨"a"⟩, ⟨"a"⟩, ⟨"c"⟩] : List Registration).filter
          (fun r => !(r.event_id == "") && r.event_id == "a")).length :=
  C3_trending_amended.1
    [⟨"a", "A", some 0, none, none⟩, ⟨"b", "B", some 0, none, none⟩]
    [⟨"a"⟩, ⟨"a"⟩, ⟨"c"⟩] _ (by decide)

/-- **C6**: every background list-population path degrades an error to the
empty/default state instead of propagating: the Explore `fetchEvents`
error and catch branches set the list to `[]`; `loadUpcoming` sets `[]`;
the `loadTrending` enclosing catch sets `[]`; in the trending fallback an
errored events sub-fetch yields the empty ranking and an errored
registrations sub-fetch still yields a ranking in which every event's
count is 0. -/
theorem C6_background_errors :
    (∀ msg, fetchEventsOutcome (.error msg) = [])
  ∧ (∀ fmt msg, loadUpcomingOutcome fmt (.error msg) = [])
  ∧ (∀ msg, loadTrendingOutcome (.error msg) = [])
  ∧ (∀ regsRes, loadTrendingFallbackRes none regsRes = [])
  ∧ (∀ eventsRes e, e ∈ loadTrendingFallbackRes eventsRes none →
        e.registration_count = 0) := by
  refine ⟨fun _ => rfl, fun _ _ => rfl, fun _ => rfl, fun _ => rfl, ?_⟩
  intro eventsRes e he
  have h := mem_loadTrendingFallback_count _ _ e he
  simpa using h

/-- Witness for C6: fallback on one event with an errored registrations
sub-fetch attaches count 0 to that event. -/
theorem C6_witness :
    (⟨"a", "A", some 0, none, 0, none⟩ : Enriched).registration_count = 0 :=
  C6_background_errors.2.2.2.2 (some [⟨"a", "A", some 0, none, none⟩]) _
    (by decide)

/-- **C7**: normalization is idempotent on already-normalized rows: an
Explore row whose tags are present and already lowercase is mapped to an
identical row, and re-applying the HomeUser normalizer to any normalized
row yields an identical object. -/
theorem C7_normalize_idempotent :
    (∀ (r : EventRow) (ts : List String), r.tags = some ts →
        (∀ t ∈ ts, normTag t = t) → normalizeExploreRow r = r)
  ∧ (∀ (fmt : Nat → String) (ev : HomeEvent),
        normalizeHome fmt (normalizeHome fmt ev) = normalizeHome fmt ev) := by
  constructor
  · intro r ts hts hnorm
    have hmap : ∀ us : List String, (∀ t ∈ us, normTag t = t) → us.map normTag = us := by
      intro us
      induction us with
      | nil => intro _; rfl
      | cons t ts ih =>
        intro h
        simp only [List.map_cons, List.cons.injEq]
        exact ⟨h t (by simp), ih (fun x hx => h x (by simp [hx]))⟩
    cases r
    simp_all [normalizeExploreRow, hmap ts hnorm]
  · intro fmt ev
    cases hst : ev.start_time <;> simp [normalizeHome, hst]

/-- Witness for C7: a row with lowercase tags is a fixed point of the
Explore normalizer, and a doubly-normalized HomeUser row equals its
singly-normalized form for a concrete formatter. -/
theorem C7_witness :
    normalizeExploreRow
        ⟨"1", "T", none, none, none, none, some ["tech", "ai"], none, none⟩
      = ⟨"1", "T", none, none, none, none, some ["tech", "ai"], none, none⟩
  ∧ normalizeHome (fun _ => "now")
        (normalizeHome (fun _ => "now")
          ⟨"1", "T", none, some 3, none, none, none, some ["tech"], none,
            none, none, none, none⟩)
      = normalizeHome (fun _ => "now")
          ⟨"1", "T", none, some 3, none, none, none, some ["tech"], none,
            none, none, none, none⟩ :=
  ⟨C7_normalize_idempotent.1 _ ["tech", "ai"] rfl (by decide),
   C7_normalize_idempotent.2 (fun _ => "now") _⟩

/-- **C8**: each realtime change notification triggers exactly one
background refetch, every such refetch carries `bypassLoading = true`, and
a bypassing `fetchEvents` run leaves the loading flag at its prior value
throughout while still updating the event list through the same fetch
outcome logic. -/
theorem C8_realtime_bypass :
    (∀ notifs, (realtimeRefetchCalls notifs).length = notifs.length)
  ∧ (∀ notifs b, b ∈ realtimeRefetchCalls notifs → b = true)
  ∧ (∀ res s, ∀ st ∈ fetchEventsTrace true res s, st.loading = s.loading)
  ∧ (∀ res s, (fetchEventsTrace true res s).map ExploreState.events
        = [fetchEventsOutcome res]) := by
  refine ⟨fun notifs => List.length_map _ _, ?_, ?_, fun res s => rfl⟩
  · intro notifs b hb
    obtain ⟨_, _, rfl⟩ := List.mem_map.mp hb
    rfl
  · intro res s st hst
    simp [fetchEventsTrace] at hst
    rw [hst]

/-- Witness for C8: one notification yields one bypassing call, and the
single state traversed by a bypassing fetch keeps the loading flag true
while the list is replaced by the fetch outcome. -/
theorem C8_witness :
    (realtimeRefetchCalls [10]).length = [10].length
  ∧ true = true
  ∧ (ExploreState.mk
        (fetchEventsOutcome (Except.ok
          [⟨"1", "T", none, some 3, none, none, none, some "approved", none⟩]))
        true).loading
      = (ExploreState.mk [] true).loading := by
  refine ⟨C8_realtime_bypass.1 [10], C8_realtime_bypass.2.1 [10] true (by decide), ?_⟩
  exact C8_realtime_bypass.2.2.1
    (Except.ok [⟨"1", "T", none, some 3, none, none, none, some "approved", none⟩])
    ⟨[], true⟩ _ (by decide)

/-- **C9**: for one event id the discussion sync fetches at most 200 items,
all belonging to that event, ordered by `created_utc` descending, and each
insert notification scoped to the event prepends the new item to the front
of the current list unchanged — no re-sort and no de-duplication. -/
theorem C9_discussion_sync :
    (∀ db eid, (fetchDiscussions db eid).length ≤ 200)
  ∧ (∀ db eid, List.Sorted discGe (fetchDiscussions db eid))
  ∧ (∀ db eid r, r ∈ fetchDiscussions db eid → r.event_id = eid)
  ∧ (∀ p prev, applyInsertNotification p prev = p :: prev) := by
  refine ⟨?_, ?_, ?_, fun p prev => rfl⟩
  · intro db eid
    rw [fetchDiscussions, List.length_take]
    exact min_le_left _ _
  · intro db eid
    exact List.Pairwise.sublist (List.take_sublist _ _)
      (List.sorted_insertionSort discGe _)
  · intro db eid r hr
    have h1 : r ∈ List.insertionSort discGe
        (db.filter (fun x => x.event_id == eid)) :=
      List.take_subset _ _ hr
    rw [List.mem_insertionSort] at h1
    have h2 := (List.mem_filter.mp h1).2
    simpa using h2

/-- Witness for C9: the single stored comment of event `e1` is returned
and indeed belongs to `e1`. -/
theorem C9_witness :
    RedditRow.event_id ⟨"c1", "e1", 5, "hello"⟩ = "e1" :=
  C9_discussion_sync.2.2.1 [⟨"c1", "e1", 5, "hello"⟩] "e1" _ (by decide)

/-- **C10**: the Explore per-row normalization changes only the `tags`
field — every other field of the input row appears unchanged in the
output — and the resulting `tags` is always a (present) array of strings,
with a null `tags` becoming the empty array, so the first-tag category
derivation never dereferences a null tag list. -/
theorem C10_normalize_frame :
    ∀ r : EventRow,
      (normalizeExploreRow r).id = r.id
      ∧ (normalizeExploreRow r).title = r.title
      ∧ (normalizeExploreRow r).description = r.description
      ∧ (normalizeExploreRow r).start_time = r.start_time
      ∧ (normalizeExploreRow r).end_time = r.end_time
      ∧ (normalizeExploreRow r).location = r.location
      ∧ (normalizeExploreRow r).status = r.status
      ∧ (normalizeExploreRow r).created_at = r.created_at
      ∧ (normalizeExploreRow r).tags = some ((r.tags.getD []).map normTag)
      ∧ (r.tags = none → (normalizeExploreRow r).tags = some [])
      ∧ deriveCategory (normalizeExploreRow r)
          = ((r.tags.getD []).map normTag).head? := by
  intro r
  refine ⟨rfl, rfl, rfl, rfl, rfl, rfl, rfl, rfl, rfl, ?_, rfl⟩
  intro h
  simp [normalizeExploreRow, h]

/-- Witness for C10: a row with null tags is normalized to the empty tag
array. -/
theorem C10_witness :
    (normalizeExploreRow
        ⟨"1", "T", none, none, none, none, none, none, none⟩).tags = some [] :=
  (C10_normalize_frame
    ⟨"1", "T", none, none, none, none, none, none, none⟩).2.2.2.2.2.2.2.2.2.1 rfl

end EventsApp
